import Mathlib

/-!
Verification of the hierarchical task-orchestration engine
(custom_workflows: test.py, Workflow-1.py, Workflow-3.py).

The development shallowly embeds:
* the deterministic Router `MasterOrchestrator._run_async_impl` of
  `src/custom_workflows/test.py` (lines 139-178), and
* the Sequential / Parallel composition operators used by
  `Workflow-1.py` and `Workflow-3.py`.  Those operators live in the
  external `google.adk` library, not in this repository, so they are
  modelled from the specification text (sections 4.3, 4.4).

Events and session state are modelled concretely: an Event carries an
author and an optional Content (a role plus a list of parts, each with
an optional text); the session state is an association list from string
keys to string values with last-write-wins lookup.
-/

/-- A `types.Part`: an optional text payload. -/
structure MsgPart where
  text : Option String
  deriving Repr, DecidableEq

/-- A `types.Content`: a role together with a list of parts. -/
structure Content where
  role : String
  parts : List MsgPart
  deriving Repr, DecidableEq

/-- An ADK `Event` as used by the orchestrator: an author name and an
optional content payload. -/
structure Event where
  author : String
  content : Option Content
  deriving Repr, DecidableEq

/-- Session state: string-keyed mapping, modelled as an association
list where the most recent write is at the head (last-write-wins). -/
abbrev SessionState := List (String × String)

/-- Python `dict.get(key, default)` over the session state. -/
def stateGet (st : SessionState) (k d : String) : String :=
  match st.lookup k with
  | some v => v
  | none => d

/-- Python substring test `needle in hay` over strings. -/
def strContains (hay needle : String) : Bool :=
  decide (needle.data <:+: hay.data)

/-- Python `str.lower` (ASCII case folding, character by character). -/
def String.lowerStr (s : String) : String :=
  ⟨s.data.map Char.toLower⟩

/-- The per-run execution context visible to the Router: the triggering
user message (`ctx.user_content`) and the shared session state
(`ctx.session.state`). -/
structure InvocationContext where
  user_content : Option Content
  state : SessionState

/-- Lines 143-145 of test.py: extract the request text from the user
content; empty string if the content is absent, its part list is empty,
or the first part's text is `None`. -/
def extractUserInput (user_content : Option Content) : String :=
  match user_content with
  | none => ""
  | some c =>
    match c.parts with
    | [] => ""
    | p :: _ => p.text.getD ""

/-- The math-rule condition of line 160 of test.py, applied to the
lower-cased input. -/
def mathKeyword (lo : String) : Bool :=
  strContains lo "add" || strContains lo "subtract" ||
    strContains lo "+" || strContains lo "-"

/-- The three routing outcomes of the if/elif/else at lines 151-170. -/
inductive RouteBranch
  | time
  | math
  | noMatch
  deriving Repr, DecidableEq

/-- The branch selected by the Router: the if/elif/else conditions of
lines 151 and 160 of test.py, over the lower-cased input. -/
def selectBranch (user_input : String) : RouteBranch :=
  if strContains user_input.lowerStr "time" then .time
  else if mathKeyword user_input.lowerStr then .math
  else .noMatch

/-- A branch agent (the Time or Math orchestrator), abstracted as the
events it emits and the session state it leaves behind when run on the
execution context. -/
abbrev BranchRun := InvocationContext → List Event × SessionState

/-- Lines 176-178 of test.py: the final Event the Router yields, built
from its own name and a single text part. -/
def finalEvent (name text : String) : Event :=
  { author := name, content := some { role := "model", parts := [{ text := some text }] } }

/-- `MasterOrchestrator._run_async_impl` (test.py lines 139-178): the
full event sequence produced by one Router invocation, given the two
branch agents as abstract behaviours. -/
def masterRun (name : String) (time_branch math_branch : BranchRun)
    (ctx : InvocationContext) : List Event :=
  if strContains (extractUserInput ctx.user_content).lowerStr "time" then
    (time_branch ctx).1 ++
      [finalEvent name
        ("The time is: " ++ stateGet (time_branch ctx).2 "time_result" "Unknown Time")]
  else if mathKeyword (extractUserInput ctx.user_content).lowerStr then
    (math_branch ctx).1 ++
      [finalEvent name
        ("The calculated result is: " ++
          stateGet (math_branch ctx).2 "calc_result" "Unknown Result")]
  else
    [finalEvent name "I can only help with Math or Time requests."]

/-- The routing decision as a function of the execution context: the
Router inspects only the extracted request text, never the session
state. -/
def routerDecision (ctx : InvocationContext) : RouteBranch :=
  selectBranch (extractUserInput ctx.user_content)

/-- The events re-emitted from the delegated branch (empty when no rule
matched), as a function of the selected branch. -/
def branchEvents (time_branch math_branch : BranchRun) (ctx : InvocationContext) :
    List Event :=
  match selectBranch (extractUserInput ctx.user_content) with
  | .time => (time_branch ctx).1
  | .math => (math_branch ctx).1
  | .noMatch => []

/-- The final summary text composed by the Router on each path. -/
def routerFinalText (time_branch math_branch : BranchRun) (ctx : InvocationContext) :
    String :=
  match selectBranch (extractUserInput ctx.user_content) with
  | .time => "The time is: " ++ stateGet (time_branch ctx).2 "time_result" "Unknown Time"
  | .math =>
      "The calculated result is: " ++
        stateGet (math_branch ctx).2 "calc_result" "Unknown Result"
  | .noMatch => "I can only help with Math or Time requests."

/-- Modelled from the spec: the observable outcome of one child agent
of a Sequential or Parallel group (`google.adk` `SequentialAgent` /
`ParallelAgent`, not under src/): the events it emits, in its own
order, and the session-state writes it performs, in order. -/
structure ChildOutcome where
  events : List Event
  writes : List (String × String)

/-- Modelled from the spec: a child agent as a function from the
session state it starts in to its outcome. -/
abbrev ChildAgent := SessionState → ChildOutcome

/-- Apply a list of writes to the state in order; a later write to the
same key shadows an earlier one (last-write-wins, spec section 4.1). -/
def applyWrites (st : SessionState) (ws : List (String × String)) : SessionState :=
  ws.foldl (fun s kv => kv :: s) st

/-- Modelled from the spec: `SequentialAgent.run` (google.adk, not
under src/), spec section 4.3 — drain each child in turn, re-emitting
its events before starting the next child, which starts from the state
left by all prior children. -/
def seqRun : List ChildAgent → SessionState → List Event × SessionState
  | [], st => ([], st)
  | c :: rest, st =>
    ((c st).events ++ (seqRun rest (applyWrites st (c st).writes)).1,
     (seqRun rest (applyWrites st (c st).writes)).2)

/-- An arbitrary interleaving of two sequences, driven by a schedule:
`true` takes the next element of the first sequence, `false` of the
second; an exhausted schedule or sequence appends whatever remains. -/
def interleave : List Bool → List α → List α → List α
  | [], xs, ys => xs ++ ys
  | true :: s, xs, ys =>
    match xs with
    | [] => ys
    | x :: xs => x :: interleave s xs ys
  | false :: s, xs, ys =>
    match ys with
    | [] => xs
    | y :: ys => y :: interleave s xs ys

/-- Modelled from the spec: `ParallelAgent.run` over two children
(google.adk, not under src/), spec section 4.4 — both children run
within the same invocation boundary starting from the same state; the
cross-child order of events and of state writes is unspecified, so both
are parameterised by arbitrary schedules; each child's own order is
preserved, and the group completes only after both children complete. -/
def parRun2 (A B : ChildAgent) (esched wsched : List Bool) (st : SessionState) :
    List Event × SessionState :=
  (interleave esched (A st).events (B st).events,
   applyWrites st (interleave wsched (A st).writes (B st).writes))

/-- Workflow-3's parallel stage viewed as a single child of the outer
Sequential orchestrator: one event, and writes to the "PROS" and
"CONS" keys (the written values stand for the capability outputs). -/
def parallelStageChild : ChildAgent :=
  fun _ =>
    ⟨[finalEvent "ParallelStage" "stage done"],
     [("PROS", "benefits"), ("CONS", "drawbacks")]⟩

/-- Workflow-3's FinalSynthesizer as a child agent: reads "PROS" and
"CONS" from the state it starts in, emits one summarizing event, and
writes nothing (it declares no output_key). -/
def finalSynthesizerChild : ChildAgent :=
  fun st =>
    ⟨[finalEvent "FinalSynthesizer"
        ("PROS=" ++ stateGet st "PROS" "?" ++ "; CONS=" ++ stateGet st "CONS" "?")],
     []⟩

/-- Workflow-3's PROS_Agent as a child of the parallel stage: one event
and a single write to "PROS". -/
def prosChild : ChildAgent :=
  fun _ => ⟨[finalEvent "PROSAgent" "pros"], [("PROS", "benefits")]⟩

/-- Workflow-3's CONS_Agent as a child of the parallel stage: one event
and a single write to "CONS". -/
def consChild : ChildAgent :=
  fun _ => ⟨[finalEvent "CONSAgent" "cons"], [("CONS", "drawbacks")]⟩

/-! ## Helper lemmas -/

/-- The Router run decomposes as the delegated branch's events followed
by exactly one final Event. -/
theorem masterRun_eq (name : String) (tb mb : BranchRun) (ctx : InvocationContext) :
    masterRun name tb mb ctx =
      branchEvents tb mb ctx ++ [finalEvent name (routerFinalText tb mb ctx)] := by
  by_cases h1 : strContains (extractUserInput ctx.user_content).lowerStr "time"
  · simp [masterRun, branchEvents, routerFinalText, selectBranch, h1]
  · by_cases h2 : mathKeyword (extractUserInput ctx.user_content).lowerStr
    · simp [masterRun, branchEvents, routerFinalText, selectBranch, h1, h2]
    · simp [masterRun, branchEvents, routerFinalText, selectBranch, h1, h2]

theorem applyWrites_eq (st : SessionState) (ws : List (String × String)) :
    applyWrites st ws = ws.reverse ++ st := by
  induction ws generalizing st with
  | nil => rfl
  | cons w ws ih =>
    simp only [applyWrites, List.foldl_cons]
    show applyWrites (w :: st) ws = _
    rw [ih]
    simp

theorem lookup_isSome_of_mem {k v : String} {l : List (String × String)}
    (h : (k, v) ∈ l) : (l.lookup k).isSome = true := by
  induction l with
  | nil => simp at h
  | cons a l ih =>
    obtain ⟨k1, v1⟩ := a
    by_cases hk : k = k1
    · subst hk; simp [List.lookup]
    · have hb : (k == k1) = false := by
        simp [hk]
      rcases List.mem_cons.1 h with h1 | h1
      · exact absurd (congrArg Prod.fst h1) hk
      · simp only [List.lookup, hb]
        exact ih h1

theorem interleave_nil_left (s : List Bool) (ys : List α) :
    interleave s [] ys = ys := by
  induction s generalizing ys with
  | nil => rfl
  | cons b s ih =>
    cases b
    · cases ys with
      | nil => rfl
      | cons y ys => show y :: interleave s [] ys = y :: ys; rw [ih]
    · rfl

theorem interleave_nil_right (s : List Bool) (xs : List α) :
    interleave s xs [] = xs := by
  induction s generalizing xs with
  | nil => simp [interleave]
  | cons b s ih =>
    cases b
    · rfl
    · cases xs with
      | nil => rfl
      | cons x xs => show x :: interleave s xs [] = x :: xs; rw [ih]

theorem interleave_length (s : List Bool) (xs ys : List α) :
    (interleave s xs ys).length = xs.length + ys.length := by
  induction s generalizing xs ys with
  | nil => simp [interleave]
  | cons b s ih =>
    cases b
    · cases ys with
      | nil => simp [interleave]
      | cons y ys => simp [interleave, ih]; omega
    · cases xs with
      | nil => simp [interleave]
      | cons x xs => simp [interleave, ih]; omega

theorem sublist_interleave_left (s : List Bool) (xs ys : List α) :
    List.Sublist xs (interleave s xs ys) := by
  induction s generalizing xs ys with
  | nil => exact List.sublist_append_left xs ys
  | cons b s ih =>
    cases b
    · cases ys with
      | nil => exact List.Sublist.refl xs
      | cons y ys => exact (ih xs ys).cons y
    · cases xs with
      | nil => exact List.nil_sublist _
      | cons x xs => exact (ih xs ys).cons₂ x

theorem sublist_interleave_right (s : List Bool) (xs ys : List α) :
    List.Sublist ys (interleave s xs ys) := by
  induction s generalizing xs ys with
  | nil => exact List.sublist_append_right xs ys
  | cons b s ih =>
    cases b
    · cases ys with
      | nil => exact List.nil_sublist _
      | cons y ys => exact (ih xs ys).cons₂ y
    · cases xs with
      | nil => exact List.Sublist.refl ys
      | cons x xs => exact (ih xs ys).cons x

theorem interleave_singletons (s : List Bool) (a b : α) :
    interleave s [a] [b] = [a, b] ∨ interleave s [a] [b] = [b, a] := by
  induction s with
  | nil => left; rfl
  | cons c s _ =>
    cases c
    · right; simp [interleave, interleave_nil_right]
    · left; simp [interleave, interleave_nil_left]

/-! ## Claim theorems -/

/-- C1: Router rule-order determinism — for every user input whose
lower-cased text contains both the substring "time" and at least one
math keyword ("add", "subtract", "+", or "-"), the Router selects the
time branch and never the math branch, because the time rule is checked
before the math rule. -/
theorem router_time_rule_precedes_math (s : String)
    (htime : strContains s.lowerStr "time" = true)
    (_hmath : mathKeyword s.lowerStr = true) :
    selectBranch s = RouteBranch.time ∧ selectBranch s ≠ RouteBranch.math := by
  constructor
  · simp [selectBranch, htime]
  · simp [selectBranch, htime]

theorem router_time_rule_precedes_math_witness :
    strContains (String.lowerStr "What TIME is it? Please add 2 + 3") "time" = true ∧
    mathKeyword (String.lowerStr "What TIME is it? Please add 2 + 3") = true ∧
    selectBranch "What TIME is it? Please add 2 + 3" = RouteBranch.time :=
  ⟨by decide, by decide,
    (router_time_rule_precedes_math "What TIME is it? Please add 2 + 3"
      (by decide) (by decide)).1⟩

/-- C2: Router NoMatch path — whenever the lower-cased extracted text
contains neither "time" nor any math keyword, the Router produces
exactly one Event carrying the fixed fallback string, for any branch
behaviours whatsoever (hence zero branch invocations); moreover an
absent user message, or one with an empty part list, extracts to the
empty string, which matches no rule. -/
theorem router_nomatch_single_fallback :
    (∀ (name : String) (tb mb : BranchRun) (ctx : InvocationContext),
      strContains (extractUserInput ctx.user_content).lowerStr "time" = false →
      mathKeyword (extractUserInput ctx.user_content).lowerStr = false →
      masterRun name tb mb ctx =
        [finalEvent name "I can only help with Math or Time requests."]) ∧
    extractUserInput none = "" ∧
    (∀ r : String, extractUserInput (some ⟨r, []⟩) = "") ∧
    strContains (String.lowerStr "") "time" = false ∧
    mathKeyword (String.lowerStr "") = false := by
  refine ⟨?_, rfl, fun r => rfl, by decide, by decide⟩
  intro name tb mb ctx h1 h2
  simp [masterRun, h1, h2]

theorem router_nomatch_single_fallback_witness :
    masterRun "MasterOrchestrator" (fun _ => ([], [])) (fun _ => ([], []))
        ⟨some ⟨"user", [⟨some "hello there"⟩]⟩, []⟩ =
      [finalEvent "MasterOrchestrator" "I can only help with Math or Time requests."] :=
  router_nomatch_single_fallback.1 "MasterOrchestrator" (fun _ => ([], []))
    (fun _ => ([], [])) ⟨some ⟨"user", [⟨some "hello there"⟩]⟩, []⟩
    (by decide) (by decide)

/-- C3: on every invocation the Router's produced sequence is the
delegated branch's events followed by exactly one further Event
authored with the Router's own name, and that final Event is the last
element of the sequence. -/
theorem router_always_one_final_event (name : String) (tb mb : BranchRun)
    (ctx : InvocationContext) :
    ∃ t : String,
      masterRun name tb mb ctx = branchEvents tb mb ctx ++ [finalEvent name t] ∧
      (finalEvent name t).author = name ∧
      (masterRun name tb mb ctx).getLast? = some (finalEvent name t) := by
  refine ⟨routerFinalText tb mb ctx, masterRun_eq name tb mb ctx, rfl, ?_⟩
  rw [masterRun_eq]
  exact List.getLast?_concat _

/-- C4: Router finalizing fallback — if a branch was selected but its
expected state key is absent afterwards ("time_result" for the time
branch, "calc_result" for the math branch), the Router still emits its
final summary Event, with the documented placeholder substituted
("Unknown Time" / "Unknown Result"). -/
theorem router_missing_key_placeholder (name : String) (tb mb : BranchRun)
    (ctx : InvocationContext) :
    (selectBranch (extractUserInput ctx.user_content) = RouteBranch.time →
      (tb ctx).2.lookup "time_result" = none →
      masterRun name tb mb ctx =
        (tb ctx).1 ++ [finalEvent name "The time is: Unknown Time"]) ∧
    (selectBranch (extractUserInput ctx.user_content) = RouteBranch.math →
      (mb ctx).2.lookup "calc_result" = none →
      masterRun name tb mb ctx =
        (mb ctx).1 ++ [finalEvent name "The calculated result is: Unknown Result"]) := by
  constructor
  · intro hsel hkey
    rw [masterRun_eq]
    simp [branchEvents, routerFinalText, hsel, stateGet, hkey]
  · intro hsel hkey
    rw [masterRun_eq]
    simp [branchEvents, routerFinalText, hsel, stateGet, hkey]

theorem router_missing_key_placeholder_witness :
    masterRun "M" (fun _ => ([], [])) (fun _ => ([], []))
        ⟨some ⟨"user", [⟨some "what time is it"⟩]⟩, []⟩ =
      [finalEvent "M" "The time is: Unknown Time"] ∧
    masterRun "M" (fun _ => ([], [])) (fun _ => ([], []))
        ⟨some ⟨"user", [⟨some "add 2 and 3"⟩]⟩, []⟩ =
      [finalEvent "M" "The calculated result is: Unknown Result"] := by
  constructor
  · have h := (router_missing_key_placeholder "M" (fun _ => ([], [])) (fun _ => ([], []))
      ⟨some ⟨"user", [⟨some "what time is it"⟩]⟩, []⟩).1 (by decide) rfl
    simpa using h
  · have h := (router_missing_key_placeholder "M" (fun _ => ([], [])) (fun _ => ([], []))
      ⟨some ⟨"user", [⟨some "add 2 and 3"⟩]⟩, []⟩).2 (by decide) rfl
    simpa using h

/-- C5: routing determinism and purity — the branch selected is a pure
function of the lower-cased request text alone: two inputs with the
same normalization select the same branch, and two invocations with the
same user message select the same branch regardless of the session
state (the decision reads no state at all). -/
theorem routing_pure_of_normalized_text :
    (∀ s t : String, s.lowerStr = t.lowerStr → selectBranch s = selectBranch t) ∧
    (∀ (uc1 uc2 : Option Content) (st1 st2 : SessionState),
      extractUserInput uc1 = extractUserInput uc2 →
      routerDecision ⟨uc1, st1⟩ = routerDecision ⟨uc2, st2⟩) := by
  constructor
  · intro s t h
    simp [selectBranch, h]
  · intro uc1 uc2 st1 st2 h
    simp [routerDecision, h]

theorem routing_pure_of_normalized_text_witness :
    String.lowerStr "TIME" = String.lowerStr "time" ∧
    selectBranch "TIME" = selectBranch "time" ∧
    routerDecision ⟨some ⟨"user", [⟨some "add 1"⟩]⟩, []⟩ =
      routerDecision ⟨some ⟨"sys", [⟨some "add 1"⟩]⟩, [("k", "v")]⟩ :=
  ⟨by decide,
   routing_pure_of_normalized_text.1 "TIME" "time" (by decide),
   routing_pure_of_normalized_text.2 (some ⟨"user", [⟨some "add 1"⟩]⟩)
     (some ⟨"sys", [⟨some "add 1"⟩]⟩) [] [("k", "v")] (by decide)⟩

/-- C8: hyphen over-matching — any input whose lower-cased text does
not contain "time" but contains the character "-" anywhere (including
ordinary hyphenated words) routes to the math branch rather than the
no-match fallback. -/
theorem hyphen_routes_to_math (s : String)
    (hnotime : strContains s.lowerStr "time" = false)
    (hdash : strContains s.lowerStr "-" = true) :
    selectBranch s = RouteBranch.math := by
  simp [selectBranch, hnotime, mathKeyword, hdash]

theorem hyphen_routes_to_math_witness :
    strContains (String.lowerStr "tell me about well-known painters") "time" = false ∧
    strContains (String.lowerStr "tell me about well-known painters") "-" = true ∧
    selectBranch "tell me about well-known painters" = RouteBranch.math :=
  ⟨by decide, by decide,
    hyphen_routes_to_math "tell me about well-known painters" (by decide) (by decide)⟩

/-- C9: only the first part of the user message determines routing —
the extracted request text depends only on parts[0], so two messages
agreeing on the first part but differing in role or in later parts
extract the same text and select the same branch, whatever the session
states are. -/
theorem routing_ignores_later_parts (r1 r2 : String) (p : MsgPart)
    (rest1 rest2 : List MsgPart) (st1 st2 : SessionState) :
    extractUserInput (some ⟨r1, p :: rest1⟩) = extractUserInput (some ⟨r2, p :: rest2⟩) ∧
    routerDecision ⟨some ⟨r1, p :: rest1⟩, st1⟩ =
      routerDecision ⟨some ⟨r2, p :: rest2⟩, st2⟩ :=
  ⟨rfl, rfl⟩

/-- C10: totality of the Router's final emission — on every execution
path the final summary text is defined and non-empty, and the terminal
Event carries exactly one part holding that text. -/
theorem router_final_emission_total (name : String) (tb mb : BranchRun)
    (ctx : InvocationContext) :
    ∃ t : String,
      masterRun name tb mb ctx = branchEvents tb mb ctx ++ [finalEvent name t] ∧
      0 < t.length ∧
      finalEvent name t =
        { author := name,
          content := some { role := "model", parts := [{ text := some t }] } } := by
  refine ⟨routerFinalText tb mb ctx, masterRun_eq name tb mb ctx, ?_, rfl⟩
  unfold routerFinalText
  cases selectBranch (extractUserInput ctx.user_content) with
  | time =>
    rw [String.length_append]
    have h : 0 < ("The time is: " : String).length := by decide
    omega
  | math =>
    rw [String.length_append]
    have h : 0 < ("The calculated result is: " : String).length := by decide
    omega
  | noMatch =>
    show 0 < ("I can only help with Math or Time requests." : String).length
    decide

/-- C6: Sequential composition — for a Sequential agent with ordered
children [A, B], all of B's events come after all of A's events in the
aggregate sequence, and B runs on the state obtained by applying every
write A performed, so each key A wrote is present when B starts.
Modelled from the spec (section 4.3), since `SequentialAgent` lives in
the external google.adk library. -/
theorem seq_two_children_order_and_state (A B : ChildAgent) (st : SessionState) :
    (seqRun [A, B] st).1 =
      (A st).events ++ (B (applyWrites st (A st).writes)).events ∧
    ∀ k v : String, (k, v) ∈ (A st).writes →
      ((applyWrites st (A st).writes).lookup k).isSome = true := by
  constructor
  · simp [seqRun]
  · intro k v h
    rw [applyWrites_eq]
    exact lookup_isSome_of_mem (List.mem_append_left st (List.mem_reverse.mpr h))

theorem seq_two_children_order_and_state_witness :
    ((applyWrites [] (parallelStageChild []).writes).lookup "PROS").isSome = true ∧
    ((applyWrites [] (parallelStageChild []).writes).lookup "CONS").isSome = true ∧
    (seqRun [parallelStageChild, finalSynthesizerChild] []).1 =
      (parallelStageChild []).events ++
        (finalSynthesizerChild (applyWrites [] (parallelStageChild []).writes)).events :=
  ⟨(seq_two_children_order_and_state parallelStageChild finalSynthesizerChild []).2
      "PROS" "benefits" (by decide),
   (seq_two_children_order_and_state parallelStageChild finalSynthesizerChild []).2
      "CONS" "drawbacks" (by decide),
   (seq_two_children_order_and_state parallelStageChild finalSynthesizerChild []).1⟩

/-- C7: Parallel composition with disjoint writers — for two children
that each write a single distinct key, after the group completes both
keys are present with the written values, whatever the cross-child
interleaving of events and of writes was; and the group's event
sequence contains every event of both children (each child's own order
preserved), so the group does not complete before every child has.
Modelled from the spec (section 4.4), since `ParallelAgent` lives in
the external google.adk library. -/
theorem par_disjoint_writers_complete (A B : ChildAgent) (st : SessionState)
    (esched wsched : List Bool) (kA vA kB vB : String)
    (hA : (A st).writes = [(kA, vA)]) (hB : (B st).writes = [(kB, vB)])
    (hne : kA ≠ kB) :
    ((parRun2 A B esched wsched st).2.lookup kA = some vA ∧
     (parRun2 A B esched wsched st).2.lookup kB = some vB) ∧
    (List.Sublist (A st).events (parRun2 A B esched wsched st).1 ∧
     List.Sublist (B st).events (parRun2 A B esched wsched st).1 ∧
     (parRun2 A B esched wsched st).1.length =
       (A st).events.length + (B st).events.length) := by
  have hab : (kA == kB) = false := by simp [hne]
  have hba : (kB == kA) = false := by simp [Ne.symm hne]
  refine ⟨?_, sublist_interleave_left esched _ _, sublist_interleave_right esched _ _,
    interleave_length esched _ _⟩
  simp only [parRun2, hA, hB]
  rcases interleave_singletons wsched (kA, vA) (kB, vB) with h | h
  · rw [h, applyWrites_eq]
    constructor
    · simp [List.lookup, hab]
    · simp [List.lookup]
  · rw [h, applyWrites_eq]
    constructor
    · simp [List.lookup]
    · simp [List.lookup, hba]

theorem par_disjoint_writers_complete_witness :
    (parRun2 prosChild consChild [false, true] [false] []).2.lookup "PROS" =
      some "benefits" ∧
    (parRun2 prosChild consChild [false, true] [false] []).2.lookup "CONS" =
      some "drawbacks" ∧
    (parRun2 prosChild consChild [false, true] [false] []).1.length =
      (prosChild []).events.length + (consChild []).events.length :=
  ⟨(par_disjoint_writers_complete prosChild consChild [] [false, true] [false]
      "PROS" "benefits" "CONS" "drawbacks" rfl rfl (by decide)).1.1,
   (par_disjoint_writers_complete prosChild consChild [] [false, true] [false]
      "PROS" "benefits" "CONS" "drawbacks" rfl rfl (by decide)).1.2,
   (par_disjoint_writers_complete prosChild consChild [] [false, true] [false]
      "PROS" "benefits" "CONS" "drawbacks" rfl rfl (by decide)).2.2.2⟩
